import Mathlib

/-!
Shallow embedding of `drake::systems::VectorBase<T>`
(src/systems/framework/vector_base.h).

A `VectorBase` is modelled as a `List α` of its elements: `size()` is
`List.length`, the read form of `GetAtIndex(i)` is `List.getD v i 0` (every
access performed by the default implementations is in range, guarded by the
size validations that precede it), and `GetAtIndex(i) = x` (i.e.
`SetAtIndex`) is `List.set v i x`.  The scalar type `T` is modelled as a
commutative ring.

C++ exceptions are modelled by explicit error values: a mutating member
returns the state of `this` after the call together with the error thrown,
if any (`List α × Option VecError`); a const member that writes a
caller-supplied output returns `Except VecError` of that output.  Eigen
pointer arguments (`EigenPtr<VectorX<T>>`, `Eigen::VectorXd*`) are modelled
as `Option` of the pointee, `none` being the null pointer.  Const members
never touch `this`, which the embedding reflects by consuming `self`
immutably and never returning it.

`DoPlusEqScaled` and the stream insertion `operator<<` additionally carry a
ghost trace of the element accesses they perform, so that statements about
traversal order and access counts can be made.
-/

namespace VectorBase

/-- Errors thrown by the default implementations.  `runtimeError c` models a
`DRAKE_THROW_UNLESS(c)` failure (a `std::runtime_error` that carries the
text of the failed condition `c`), and `outOfRange m` models an explicit
`throw std::out_of_range(m)`. -/
inductive VecError where
  | runtimeError (condition : String)
  | outOfRange (message : String)
deriving DecidableEq, Repr

/-- Ghost event recording one element access made by a default
implementation: a read or a write of `this` at index `i`, or a read of
operand number `k` (zero-based position in the `rhs_scale` list) at
index `i`. -/
inductive Access where
  | readThis (i : Nat)
  | writeThis (i : Nat)
  | readOperand (k i : Nat)
deriving DecidableEq, Repr

variable {α : Type} [CommRing α]

/-- Read form of `GetAtIndex(i)`.  Total via a default value; the default
implementations only ever read in range. -/
def GetAtIndex (v : List α) (i : Nat) : α := v.getD i 0

/-- `SetAtIndex(index, value)`: writes one element via the mutable
accessor, `GetAtIndex(index) = value`. -/
def SetAtIndex (v : List α) (i : Nat) (x : α) : List α := v.set i x

/-- State of `v` after the first `n` iterations of a write-only loop
`for (int i = 0; i < n; ++i) { v[i] = f(i); }` whose right-hand side does
not read `v`. -/
def setLoop (v : List α) (f : Nat → α) : Nat → List α
  | 0 => v
  | n + 1 => SetAtIndex (setLoop v f n) n (f n)

/-- `VectorBase::SetFrom(value)`: `DRAKE_THROW_UNLESS(value.size() == size())`,
then `for (i = 0; i < value.size(); ++i) SetAtIndex(i, value.GetAtIndex(i))`.
Returns the state of `this` after the call and the error thrown, if any. -/
def SetFrom (self value : List α) : List α × Option VecError :=
  if value.length == self.length then
    (setLoop self (fun i => GetAtIndex value i) value.length, none)
  else
    (self, some (VecError.runtimeError "value.size() == size()"))

/-- `VectorBase::SetZero()`: `sz = size()`, then
`for (i = 0; i < sz; ++i) SetAtIndex(i, T(0))`.  No validation, no error. -/
def SetZero (self : List α) : List α :=
  setLoop self (fun _ => (0 : α)) self.length

/-- `VectorBase::CopyToVector()`: allocates `VectorX<T> vec(size())`
(modelled as a zero-filled fresh list) and writes `vec[i] = GetAtIndex(i)`
for each `i < size()`.  Const; returns the freshly built dense vector. -/
def CopyToVector (self : List α) : List α :=
  setLoop (List.replicate self.length (0 : α)) (fun i => GetAtIndex self i)
    self.length

/-- `VectorBase::CopyToPreSizedVector(vec)`:
`DRAKE_THROW_UNLESS(vec != nullptr)`, then
`DRAKE_THROW_UNLESS(vec->rows() == size())`, then
`for (i = 0; i < size(); ++i) (*vec)[i] = GetAtIndex(i)`.  Const; returns
the new contents of `*vec` or the error thrown. -/
def CopyToPreSizedVector (self : List α) (vec : Option (List α)) :
    Except VecError (List α) :=
  match vec with
  | none => Except.error (VecError.runtimeError "vec != nullptr")
  | some v =>
    if v.length == self.length then
      Except.ok (setLoop v (fun i => GetAtIndex self i) self.length)
    else
      Except.error (VecError.runtimeError "vec->rows() == size()")

/-- State of `*vec` after the first `n` iterations of the loop of
`ScaleAndAddToVector`: `for (i = 0; i < n; ++i) (*vec)[i] += scale * GetAtIndex(i)`,
reading the current state of `*vec` at each step. -/
def addLoop (self : List α) (scale : α) (v : List α) : Nat → List α
  | 0 => v
  | n + 1 =>
    let w := addLoop self scale v n
    SetAtIndex w n (GetAtIndex w n + scale * GetAtIndex self n)

/-- `VectorBase::ScaleAndAddToVector(scale, vec)`:
`DRAKE_THROW_UNLESS(vec != nullptr)`; then
`if (vec->rows() != size()) throw std::out_of_range("Addends must be the same size.")`;
then the accumulation loop.  Const; returns the new contents of `*vec` or
the error thrown. -/
def ScaleAndAddToVector (self : List α) (scale : α) (vec : Option (List α)) :
    Except VecError (List α) :=
  match vec with
  | none => Except.error (VecError.runtimeError "vec != nullptr")
  | some v =>
    if v.length != self.length then
      Except.error (VecError.outOfRange "Addends must be the same size.")
    else
      Except.ok (addLoop self scale v self.length)

/-- Inner loop of `DoPlusEqScaled` at index `i`:
`for (operand : rhs_scale) value += operand.second.GetAtIndex(i) * operand.first`,
entered with accumulator `value` and with `k` the zero-based position of the
first remaining operand.  Returns the final accumulator and the ghost list
of operand reads performed, in order. -/
def innerLoop (i : Nat) : List (α × List α) → Nat → α → α × List Access
  | [], _, value => (value, [])
  | op :: rest, k, value =>
    let next := innerLoop i rest (k + 1) (value + GetAtIndex op.2 i * op.1)
    (next.1, Access.readOperand k i :: next.2)

/-- State of `this` and ghost access trace after the first `n` iterations of
the outer loop of `DoPlusEqScaled`:
`for (i = 0; i < sz; ++i) { T value(0); <inner loop>; SetAtIndex(i, GetAtIndex(i) + value); }`. -/
def outerLoop (ops : List (α × List α)) (self : List α) :
    Nat → List α × List Access
  | 0 => (self, [])
  | n + 1 =>
    let prev := outerLoop ops self n
    let inner := innerLoop n ops 0 0
    (SetAtIndex prev.1 n (GetAtIndex prev.1 n + inner.1),
     prev.2 ++ inner.2 ++ [Access.readThis n, Access.writeThis n])

/-- `VectorBase::DoPlusEqScaled(rhs_scale)` (the default multi-accumulate
algorithm), with its ghost access trace.  `sz = size()` is read once before
the loop; operands are the immutable `(scale, vector)` pairs `ops`. -/
def DoPlusEqScaled (self : List α) (ops : List (α × List α)) :
    List α × List Access :=
  outerLoop ops self self.length

/-- `VectorBase::PlusEqScaled(rhs_scale)` (multi-operand overload): first a
validation loop over all operands,
`if (operand.second.size() != size()) throw std::out_of_range("Addends must be the same size.")`,
and only after every operand has passed is `DoPlusEqScaled(rhs_scale)`
called.  Returns the state of `this` after the call and the error thrown,
if any. -/
def PlusEqScaled (self : List α) (ops : List (α × List α)) :
    List α × Option VecError :=
  if ops.all (fun op => op.2.length == self.length) then
    ((DoPlusEqScaled self ops).1, none)
  else
    (self, some (VecError.outOfRange "Addends must be the same size."))

/-- `VectorBase::PlusEqScaled(scale, rhs)` (single-operand overload):
delegates to the multi-operand overload with the one-element list
`{{scale, rhs}}`. -/
def PlusEqScaled1 (self : List α) (scale : α) (rhs : List α) :
    List α × Option VecError :=
  PlusEqScaled self [(scale, rhs)]

/-- Default `VectorBase::GetElementBounds(lower, upper)`:
`lower->resize(0); upper->resize(0);` with no null-pointer guard anywhere
in the body.  The two pointer arguments are modelled as `Option`s; a null
pointer is dereferenced without any check, which is undefined behavior,
modelled as the result `none` — no `VecError` is (or can be) produced.
With valid pointers the previous pointee contents are discarded and both
outputs become empty, whatever `self` holds. -/
def GetElementBounds (self : List α) (lower upper : Option (List Rat)) :
    Option (List Rat × List Rat) :=
  match lower, upper with
  | some _, some _ => some ([], [])
  | _, _ => none

/-- Text appended to the stream, and ghost list of indices read from `vec`,
by the first `n` iterations of the loop of `operator<<`:
`for (i = 0; i < vec.size(); ++i) { if (i > 0) os << ", "; os << vec.GetAtIndex(i); }`. -/
def streamLoop (fmt : α → String) (v : List α) : Nat → String × List Nat
  | 0 => ("", [])
  | n + 1 =>
    let prev := streamLoop fmt v n
    (prev.1 ++ (if 0 < n then ", " else "") ++ fmt (GetAtIndex v n),
     prev.2 ++ [n])

/-- `operator<<(std::ostream& os, const VectorBase<T>& vec)`:
`os << "["`, the element loop, `os << "]"`.  `fmt` renders one scalar the
way `os << x` does.  Returns the full text written and the ghost list of
indices read via `GetAtIndex`, in order. -/
def streamVector (fmt : α → String) (v : List α) : String × List Nat :=
  let body := streamLoop fmt v v.length
  ("[" ++ body.1 ++ "]", body.2)

/-- Spec-side rendering of a comma-separated listing
`"e0, e1, ..., e(N-1)"`, written from the spec's words, to be compared with
the loop of `operator<<`. -/
def commaJoin : List String → String
  | [] => ""
  | [s] => s
  | s :: t :: rest => s ++ ", " ++ commaJoin (t :: rest)

/-! Shared helper lemmas about the loop embeddings. -/

theorem GetAtIndex_eq (v : List α) (j : Nat) (h : j < v.length) :
    GetAtIndex v j = v[j] := by
  simp [GetAtIndex, List.getD_eq_getElem?_getD, List.getElem?_eq_getElem h]

theorem setLoop_length (v : List α) (f : Nat → α) (n : Nat) :
    (setLoop v f n).length = v.length := by
  induction n with
  | zero => rfl
  | succ n ih => simp [setLoop, SetAtIndex, List.length_set, ih]

theorem setLoop_getElem? (v : List α) (f : Nat → α) (n : Nat)
    (h : n ≤ v.length) (j : Nat) :
    (setLoop v f n)[j]? = if j < n then some (f j) else v[j]? := by
  induction n with
  | zero => simp [setLoop]
  | succ n ih =>
    have hn : n ≤ v.length := Nat.le_of_succ_le h
    simp only [setLoop, SetAtIndex, List.getElem?_set, setLoop_length, ih hn]
    by_cases hj : n = j
    · subst hj
      simp [Nat.lt_of_succ_le h, Nat.lt_succ_self]
    · by_cases hj2 : j < n
      · simp [hj, hj2, Nat.lt_succ_of_lt hj2]
      · have h3 : ¬ j < n + 1 := by omega
        simp [hj, hj2, h3]

theorem setLoop_copy (tgt src : List α) (h : src.length = tgt.length) :
    setLoop tgt (fun i => GetAtIndex src i) src.length = src := by
  apply List.ext_getElem?
  intro j
  rw [setLoop_getElem? tgt _ src.length (by omega) j]
  by_cases hj : j < src.length
  · rw [if_pos hj, GetAtIndex_eq src j hj, List.getElem?_eq_getElem hj]
  · rw [if_neg hj, List.getElem?_eq_none (by omega : tgt.length ≤ j),
      List.getElem?_eq_none (by omega : src.length ≤ j)]

theorem copyToVector_eq (v : List α) : CopyToVector v = v := by
  unfold CopyToVector
  exact setLoop_copy _ v (by simp)

theorem setZero_eq_replicate (v : List α) :
    SetZero v = List.replicate v.length (0 : α) := by
  apply List.ext_getElem?
  intro j
  unfold SetZero
  rw [setLoop_getElem? v _ v.length (le_refl _) j, List.getElem?_replicate]
  by_cases hj : j < v.length
  · simp [hj]
  · simp [hj, List.getElem?_eq_none (by omega : v.length ≤ j)]

theorem addLoop_length (self : List α) (s : α) (v : List α) (n : Nat) :
    (addLoop self s v n).length = v.length := by
  induction n with
  | zero => rfl
  | succ n ih => simp [addLoop, SetAtIndex, List.length_set, ih]

theorem addLoop_getElem? (self : List α) (s : α) (v : List α) (n : Nat)
    (h : n ≤ v.length) (j : Nat) :
    (addLoop self s v n)[j]? =
      if j < n then some (GetAtIndex v j + s * GetAtIndex self j)
      else v[j]? := by
  induction n generalizing j with
  | zero => simp [addLoop]
  | succ n ih =>
    have hn : n ≤ v.length := Nat.le_of_succ_le h
    have hlt : n < v.length := Nat.lt_of_succ_le h
    have hw : GetAtIndex (addLoop self s v n) n = GetAtIndex v n := by
      simp [GetAtIndex, List.getD_eq_getElem?_getD, ih hn n]
    simp only [addLoop, SetAtIndex, List.getElem?_set, addLoop_length,
      ih hn j, hw]
    by_cases hj : n = j
    · subst hj
      simp [hlt, Nat.lt_succ_self]
    · by_cases hj2 : j < n
      · simp [hj, hj2, Nat.lt_succ_of_lt hj2]
      · have h3 : ¬ j < n + 1 := by omega
        simp [hj, hj2, h3]

theorem addLoop_zipWith (self : List α) (s : α) (v : List α)
    (h : v.length = self.length) :
    addLoop self s v self.length =
      List.zipWith (fun b a => b + s * a) v self := by
  apply List.ext_getElem?
  intro j
  rw [addLoop_getElem? self s v self.length (by omega) j]
  by_cases hj : j < self.length
  · have hjv : j < v.length := by omega
    have hz : j < (List.zipWith (fun b a => b + s * a) v self).length := by
      rw [List.length_zipWith]
      exact lt_inf_iff.mpr ⟨hjv, hj⟩
    rw [if_pos hj, List.getElem?_eq_getElem hz, List.getElem_zipWith,
      GetAtIndex_eq v j hjv, GetAtIndex_eq self j hj]
  · rw [if_neg hj, List.getElem?_eq_none (by omega : v.length ≤ j),
      List.getElem?_eq_none
        (le_trans (by rw [List.length_zipWith]; exact inf_le_left)
          (by omega : v.length ≤ j))]

theorem innerLoop_fst (i : Nat) (ops : List (α × List α)) (k : Nat)
    (value : α) :
    (innerLoop i ops k value).1 =
      value + (ops.map (fun op => GetAtIndex op.2 i * op.1)).sum := by
  induction ops generalizing k value with
  | nil => simp [innerLoop]
  | cons op rest ih => simp [innerLoop, ih, add_assoc]

theorem innerLoop_snd (i : Nat) (ops : List (α × List α)) (k : Nat)
    (value : α) :
    (innerLoop i ops k value).2 =
      (List.range ops.length).map (fun j => Access.readOperand (k + j) i) := by
  induction ops generalizing k value with
  | nil => simp [innerLoop]
  | cons op rest ih =>
    simp only [innerLoop, ih, List.length_cons, List.range_succ_eq_map,
      List.map_cons, List.map_map]
    congr 1
    apply List.map_congr_left
    intro a _
    simp only [Function.comp_apply]
    congr 1
    omega

theorem outerLoop_fst_length (ops : List (α × List α)) (self : List α)
    (n : Nat) :
    ((outerLoop ops self n).1).length = self.length := by
  induction n with
  | zero => rfl
  | succ n ih => simp [outerLoop, SetAtIndex, List.length_set, ih]

theorem outerLoop_fst_getElem? (ops : List (α × List α)) (self : List α)
    (n : Nat) (h : n ≤ self.length) (j : Nat) :
    ((outerLoop ops self n).1)[j]? =
      if j < n then
        some (GetAtIndex self j +
          (ops.map (fun op => GetAtIndex op.2 j * op.1)).sum)
      else self[j]? := by
  induction n generalizing j with
  | zero => simp [outerLoop]
  | succ n ih =>
    have hn : n ≤ self.length := Nat.le_of_succ_le h
    have hlt : n < self.length := Nat.lt_of_succ_le h
    have hprev : GetAtIndex (outerLoop ops self n).1 n = GetAtIndex self n := by
      simp [GetAtIndex, List.getD_eq_getElem?_getD, ih hn n]
    have hval : (innerLoop n ops 0 (0 : α)).1 =
        (ops.map (fun op => GetAtIndex op.2 n * op.1)).sum := by
      rw [innerLoop_fst, zero_add]
    simp only [outerLoop, SetAtIndex, List.getElem?_set, outerLoop_fst_length,
      ih hn j, hprev, hval]
    by_cases hj : n = j
    · subst hj
      simp [hlt, Nat.lt_succ_self]
    · by_cases hj2 : j < n
      · simp [hj, hj2, Nat.lt_succ_of_lt hj2]
      · have h3 : ¬ j < n + 1 := by omega
        simp [hj, hj2, h3]

theorem outerLoop_snd (ops : List (α × List α)) (self : List α) (n : Nat) :
    (outerLoop ops self n).2 =
      (List.range n).flatMap (fun i =>
        (List.range ops.length).map (fun k => Access.readOperand k i) ++
          [Access.readThis i, Access.writeThis i]) := by
  induction n with
  | zero => simp [outerLoop]
  | succ n ih =>
    have hin : (innerLoop n ops 0 (0 : α)).2 =
        (List.range ops.length).map (fun k => Access.readOperand k n) := by
      rw [innerLoop_snd]
      simp
    simp [outerLoop, ih, hin, List.range_succ, List.flatMap_append,
      List.flatMap_cons, List.flatMap_nil, List.append_assoc]

theorem doPlusEqScaled_fst (self : List α) (ops : List (α × List α)) :
    (DoPlusEqScaled self ops).1 =
      (List.range self.length).map (fun i =>
        GetAtIndex self i +
          (ops.map (fun op => GetAtIndex op.2 i * op.1)).sum) := by
  apply List.ext_getElem?
  intro j
  simp only [DoPlusEqScaled]
  rw [outerLoop_fst_getElem? ops self self.length (le_refl _) j]
  by_cases hj : j < self.length
  · rw [if_pos hj, List.getElem?_map, List.getElem?_range hj]
    rfl
  · rw [if_neg hj, List.getElem?_eq_none (by omega : self.length ≤ j),
      List.getElem?_eq_none
        (by rw [List.length_map, List.length_range]; omega)]

theorem opSum_comm (ops : List (α × List α)) (i : Nat) :
    (ops.map (fun op => GetAtIndex op.2 i * op.1)).sum =
      (ops.map (fun op => op.1 * GetAtIndex op.2 i)).sum := by
  congr 1
  apply List.map_congr_left
  intro op _
  ring

theorem plusEqScaled_ok (self : List α) (ops : List (α × List α))
    (h : ∀ op ∈ ops, op.2.length = self.length) :
    PlusEqScaled self ops = ((DoPlusEqScaled self ops).1, none) := by
  have hall : ops.all (fun op => op.2.length == self.length) = true := by
    rw [List.all_eq_true]
    intro op hmem
    exact beq_iff_eq.mpr (h op hmem)
  simp [PlusEqScaled, hall]

theorem GetAtIndex_range_map (N : Nat) (f : Nat → α) (j : Nat) (h : j < N) :
    GetAtIndex ((List.range N).map f) j = f j := by
  simp [GetAtIndex, List.getD_eq_getElem?_getD, List.getElem?_map,
    List.getElem?_range h]

theorem commaJoin_concat (l : List String) (x : String) (hl : l ≠ []) :
    commaJoin (l ++ [x]) = commaJoin l ++ ", " ++ x := by
  induction l with
  | nil => exact absurd rfl hl
  | cons a t ih =>
    cases t with
    | nil => simp [commaJoin]
    | cons b t2 =>
      have hrec := ih (by simp)
      simp only [List.cons_append, List.append_eq, commaJoin] at hrec ⊢
      simp [hrec, String.append_assoc]

theorem streamLoop_fst (fmt : α → String) (v : List α) (n : Nat)
    (h : n ≤ v.length) :
    (streamLoop fmt v n).1 = commaJoin ((v.take n).map fmt) := by
  induction n with
  | zero => simp [streamLoop, commaJoin]
  | succ n ih =>
    have hn : n ≤ v.length := Nat.le_of_succ_le h
    have hlt : n < v.length := Nat.lt_of_succ_le h
    have htake : (v.take (n + 1)).map fmt = (v.take n).map fmt ++ [fmt v[n]] := by
      rw [List.take_succ, List.getElem?_eq_getElem hlt, List.map_append]
      rfl
    by_cases h0 : 0 < n
    · have hne : (v.take n).map fmt ≠ [] := by
        rw [ne_eq, List.map_eq_nil_iff]
        intro hcontra
        rw [List.take_eq_nil_iff] at hcontra
        rcases hcontra with h1 | h1
        · omega
        · rw [h1] at hlt
          simp at hlt
      simp only [streamLoop, ih hn, htake, commaJoin_concat _ _ hne,
        if_pos h0, GetAtIndex_eq v n hlt]
    · have hn0 : n = 0 := by omega
      subst hn0
      simp only [streamLoop, if_neg h0, GetAtIndex_eq v 0 hlt, htake]
      simp [commaJoin, String.empty_append]

theorem streamLoop_snd (fmt : α → String) (v : List α) (n : Nat) :
    (streamLoop fmt v n).2 = List.range n := by
  induction n with
  | zero => rfl
  | succ n ih => simp [streamLoop, ih, List.range_succ]

/-! Claim theorems. -/

/-- C1: the multi-operand `PlusEqScaled` validates every operand's size
against `size()` before any element of `this` is mutated, so when some
operand's size differs the call raises the size-mismatch error
(`std::out_of_range`) and leaves `this` completely unmodified — no partial
application. -/
theorem plusEqScaled_all_or_nothing (self : List α) (ops : List (α × List α))
    (h : ∃ op ∈ ops, op.2.length ≠ self.length) :
    PlusEqScaled self ops =
      (self, some (VecError.outOfRange "Addends must be the same size.")) := by
  obtain ⟨op, hmem, hne⟩ := h
  have hall : ¬ (ops.all (fun op => op.2.length == self.length) = true) := by
    rw [List.all_eq_true]
    intro hcontra
    exact hne (beq_iff_eq.mp (hcontra op hmem))
  simp [PlusEqScaled, hall]

/-- Witness for C1: a two-element `this` with a three-element operand. -/
theorem plusEqScaled_all_or_nothing_witness :
    PlusEqScaled ([1, 2] : List ℤ) [((1 : ℤ), [1, 2, 3])] =
      ([1, 2], some (VecError.outOfRange "Addends must be the same size.")) :=
  plusEqScaled_all_or_nothing [1, 2] [((1 : ℤ), [1, 2, 3])]
    ⟨((1 : ℤ), [1, 2, 3]), by decide, by decide⟩

/-- C2: the default `DoPlusEqScaled`, on a validated list of
`(scale_k, vector_k)` pairs all of size `N = size()`, makes `this[i]`
become `this[i] + Σ_k scale_k * vector_k.get(i)` for every `i < N`, and
its access trace is index-major: per index `i`, in order, one read of each
operand (inner loop over operands), then exactly one read and exactly one
write of `this[i]`. -/
theorem doPlusEqScaled_spec (self : List α) (ops : List (α × List α))
    (h : ∀ op ∈ ops, op.2.length = self.length) :
    (DoPlusEqScaled self ops).1 =
      (List.range self.length).map (fun i =>
        GetAtIndex self i +
          (ops.map (fun op => op.1 * GetAtIndex op.2 i)).sum) ∧
    (DoPlusEqScaled self ops).2 =
      (List.range self.length).flatMap (fun i =>
        (List.range ops.length).map (fun k => Access.readOperand k i) ++
          [Access.readThis i, Access.writeThis i]) := by
  constructor
  · rw [doPlusEqScaled_fst]
    apply List.map_congr_left
    intro i _
    rw [opSum_comm]
  · exact outerLoop_snd ops self self.length

/-- Witness for C2: two operands on a size-2 vector; the result and the
exact access trace, evaluated. -/
theorem doPlusEqScaled_spec_witness :
    (DoPlusEqScaled ([1, 2] : List ℤ)
        [((2 : ℤ), [10, 20]), ((3 : ℤ), [100, 200])]).1 = [321, 642] ∧
    (DoPlusEqScaled ([1, 2] : List ℤ)
        [((2 : ℤ), [10, 20]), ((3 : ℤ), [100, 200])]).2 =
      [Access.readOperand 0 0, Access.readOperand 1 0, Access.readThis 0,
       Access.writeThis 0, Access.readOperand 0 1, Access.readOperand 1 1,
       Access.readThis 1, Access.writeThis 1] := by
  have h := doPlusEqScaled_spec ([1, 2] : List ℤ)
    [((2 : ℤ), [10, 20]), ((3 : ℤ), [100, 200])] (by decide)
  exact ⟨h.1.trans (by decide), h.2.trans (by decide)⟩

/-- C3: for vectors of equal size `N`, `A.PlusEqScaled(s, B)` succeeds and
leaves `A[i] = A_old[i] + s * B[i]` for every `i < N`. -/
theorem plusEqScaled_single_spec (A B : List α) (s : α)
    (h : B.length = A.length) :
    PlusEqScaled1 A s B =
      (List.zipWith (fun a b => a + s * b) A B, none) := by
  have hv : ∀ op ∈ [(s, B)], op.2.length = A.length := by
    intro op hmem
    rw [List.mem_singleton] at hmem
    subst hmem
    exact h
  rw [PlusEqScaled1, plusEqScaled_ok A [(s, B)] hv, doPlusEqScaled_fst]
  simp only [Prod.mk.injEq, and_true]
  apply List.ext_getElem?
  intro j
  by_cases hj : j < A.length
  · have hjb : j < B.length := by omega
    have hz : j < (List.zipWith (fun a b => a + s * b) A B).length := by
      rw [List.length_zipWith]
      exact lt_inf_iff.mpr ⟨hj, hjb⟩
    rw [List.getElem?_map, List.getElem?_range hj,
      List.getElem?_eq_getElem hz, List.getElem_zipWith]
    simp only [Option.map_some', Option.some.injEq, List.map_cons,
      List.map_nil, List.sum_cons, List.sum_nil,
      GetAtIndex_eq A j hj, GetAtIndex_eq B j hjb]
    ring
  · rw [List.getElem?_eq_none
        (by rw [List.length_map, List.length_range]; omega),
      List.getElem?_eq_none
        (le_trans (by rw [List.length_zipWith]; exact inf_le_left)
          (by omega : A.length ≤ j))]

/-- Witness for C3: the spec's example, `[1,2,3] += 2 * [10,20,30]` gives
`[21,42,63]`. -/
theorem plusEqScaled_single_spec_witness :
    PlusEqScaled1 ([1, 2, 3] : List ℤ) 2 [10, 20, 30] = ([21, 42, 63], none) :=
  (plusEqScaled_single_spec ([1, 2, 3] : List ℤ) [10, 20, 30] 2 rfl).trans
    (by decide)

/-- C4: multi-operand accumulation equals sequential single-operand
accumulation (exact scalar arithmetic): the two-operand call succeeds and
yields the same final contents as the two chained single-operand calls. -/
theorem plusEqScaled_multi_eq_sequential (A B1 B2 : List α) (s1 s2 : α)
    (h1 : B1.length = A.length) (h2 : B2.length = A.length) :
    (PlusEqScaled A [(s1, B1), (s2, B2)]).1 =
      (PlusEqScaled1 (PlusEqScaled1 A s1 B1).1 s2 B2).1 ∧
    (PlusEqScaled A [(s1, B1), (s2, B2)]).2 = none := by
  have hv2 : ∀ op ∈ [(s1, B1), (s2, B2)], op.2.length = A.length := by
    intro op hmem
    rw [List.mem_cons, List.mem_singleton] at hmem
    rcases hmem with rfl | rfl
    · exact h1
    · exact h2
  have hv1 : ∀ op ∈ [(s1, B1)], op.2.length = A.length := by
    intro op hmem
    rw [List.mem_singleton] at hmem
    subst hmem
    exact h1
  have e1 : (PlusEqScaled1 A s1 B1).1 = (List.range A.length).map (fun i =>
      GetAtIndex A i +
        ([(s1, B1)].map (fun op => GetAtIndex op.2 i * op.1)).sum) := by
    rw [PlusEqScaled1, plusEqScaled_ok A [(s1, B1)] hv1, doPlusEqScaled_fst]
  have hlen1 : (PlusEqScaled1 A s1 B1).1.length = A.length := by
    rw [e1, List.length_map, List.length_range]
  have hv1' : ∀ op ∈ [(s2, B2)],
      op.2.length = (PlusEqScaled1 A s1 B1).1.length := by
    intro op hmem
    rw [List.mem_singleton] at hmem
    subst hmem
    rw [hlen1]
    exact h2
  have emulti : PlusEqScaled A [(s1, B1), (s2, B2)] =
      ((DoPlusEqScaled A [(s1, B1), (s2, B2)]).1, none) :=
    plusEqScaled_ok A _ hv2
  refine ⟨?_, by rw [emulti]⟩
  rw [emulti]
  rw [PlusEqScaled1, plusEqScaled_ok _ [(s2, B2)] hv1', doPlusEqScaled_fst,
    doPlusEqScaled_fst, hlen1, e1]
  apply List.map_congr_left
  intro i hmem
  have hi : i < A.length := List.mem_range.mp hmem
  rw [GetAtIndex_range_map A.length _ i hi]
  simp only [List.map_cons, List.map_nil, List.sum_cons, List.sum_nil]
  ring

/-- Witness for C4 at a concrete pair of operands. -/
theorem plusEqScaled_multi_eq_sequential_witness :
    (PlusEqScaled ([1, 2] : List ℤ) [((2 : ℤ), [10, 20]), ((3 : ℤ), [5, 7])]).1 =
      (PlusEqScaled1 (PlusEqScaled1 ([1, 2] : List ℤ) 2 [10, 20]).1 3 [5, 7]).1 ∧
    (PlusEqScaled ([1, 2] : List ℤ) [((2 : ℤ), [10, 20]), ((3 : ℤ), [5, 7])]).2 =
      none :=
  plusEqScaled_multi_eq_sequential [1, 2] [10, 20] [5, 7] 2 3 rfl rfl

/-- C5: `SetFrom` raises the size-mismatch error (and changes nothing) when
the sizes differ, and otherwise performs a full element-wise copy, so that
`A.SetFrom(B)` followed by `A.CopyToVector()` equals `B.CopyToVector()`. -/
theorem setFrom_spec (A B : List α) :
    (B.length ≠ A.length →
      SetFrom A B =
        (A, some (VecError.runtimeError "value.size() == size()"))) ∧
    (B.length = A.length →
      SetFrom A B = (B, none) ∧
        CopyToVector (SetFrom A B).1 = CopyToVector B) := by
  constructor
  · intro hne
    have : ¬ (B.length == A.length) = true := by
      simpa [beq_iff_eq] using hne
    simp [SetFrom, this]
  · intro heq
    have hbeq : (B.length == A.length) = true := beq_iff_eq.mpr heq
    have hcopy : setLoop A (fun i => GetAtIndex B i) B.length = B :=
      setLoop_copy A B heq
    constructor
    · simp only [SetFrom, hbeq, if_true, hcopy]
    · simp only [SetFrom, hbeq, if_true, hcopy]

/-- Witness for C5: a mismatch case and a successful copy. -/
theorem setFrom_spec_witness :
    SetFrom ([1, 2] : List ℤ) [5, 6, 7] =
      ([1, 2], some (VecError.runtimeError "value.size() == size()")) ∧
    SetFrom ([1, 2] : List ℤ) [5, 6] = ([5, 6], none) :=
  ⟨(setFrom_spec ([1, 2] : List ℤ) [5, 6, 7]).1 (by decide),
   ((setFrom_spec ([1, 2] : List ℤ) [5, 6]).2 rfl).1⟩

/-- C6: `SetZero` succeeds without error on any size `N ≥ 0` and writes the
scalar zero everywhere, so `CopyToVector` then returns `N` zeros; on the
empty vector both operations trivially produce empty results. -/
theorem setZero_copyToVector_spec (v : List α) :
    CopyToVector (SetZero v) = List.replicate v.length (0 : α) ∧
    SetZero ([] : List α) = [] ∧ CopyToVector ([] : List α) = [] := by
  refine ⟨?_, rfl, rfl⟩
  rw [copyToVector_eq, setZero_eq_replicate]

/-- C7: `CopyToPreSizedVector` fails on a null output, fails on a
wrong-sized output, the two failure conditions are distinguishable, and on
success the output receives a full element-wise copy of the
(const-qualified, hence never modified) source. -/
theorem copyToPreSizedVector_spec (self v : List α) :
    CopyToPreSizedVector self (none : Option (List α)) =
      Except.error (VecError.runtimeError "vec != nullptr") ∧
    (v.length ≠ self.length →
      CopyToPreSizedVector self (some v) =
        Except.error (VecError.runtimeError "vec->rows() == size()")) ∧
    VecError.runtimeError "vec != nullptr" ≠
      VecError.runtimeError "vec->rows() == size()" ∧
    (v.length = self.length →
      CopyToPreSizedVector self (some v) = Except.ok self) := by
  refine ⟨rfl, ?_, by decide, ?_⟩
  · intro hne
    have : ¬ (v.length == self.length) = true := by
      simpa [beq_iff_eq] using hne
    simp [CopyToPreSizedVector, this]
  · intro heq
    have hbeq : (v.length == self.length) = true := beq_iff_eq.mpr heq
    simp only [CopyToPreSizedVector, hbeq, if_true]
    exact congrArg Except.ok (setLoop_copy v self heq.symm)

/-- Witness for C7: null pointer, wrong-sized output, and a successful
copy, on concrete vectors. -/
theorem copyToPreSizedVector_spec_witness :
    CopyToPreSizedVector ([1, 2] : List ℤ) none =
      Except.error (VecError.runtimeError "vec != nullptr") ∧
    CopyToPreSizedVector ([1, 2] : List ℤ) (some [0, 0, 0]) =
      Except.error (VecError.runtimeError "vec->rows() == size()") ∧
    CopyToPreSizedVector ([1, 2] : List ℤ) (some [9, 9]) = Except.ok [1, 2] :=
  ⟨(copyToPreSizedVector_spec ([1, 2] : List ℤ) [0, 0, 0]).1,
   (copyToPreSizedVector_spec ([1, 2] : List ℤ) [0, 0, 0]).2.1 (by decide),
   (copyToPreSizedVector_spec ([1, 2] : List ℤ) [9, 9]).2.2.2 rfl⟩

/-- C8: `ScaleAndAddToVector` turns each `vec[i]` into
`vec[i] + scale * GetAtIndex(i)`; it raises the out-of-range-class
size-mismatch error on a dimension mismatch and the invalid-argument
(null-output) error on a null pointer, mutating nothing in either failure
case (both checks precede the loop). -/
theorem scaleAndAddToVector_spec (self v : List α) (scale : α) :
    ScaleAndAddToVector self scale (none : Option (List α)) =
      Except.error (VecError.runtimeError "vec != nullptr") ∧
    (v.length ≠ self.length →
      ScaleAndAddToVector self scale (some v) =
        Except.error (VecError.outOfRange "Addends must be the same size.")) ∧
    (v.length = self.length →
      ScaleAndAddToVector self scale (some v) =
        Except.ok (List.zipWith (fun b a => b + scale * a) v self)) := by
  refine ⟨rfl, ?_, ?_⟩
  · intro hne
    simp [ScaleAndAddToVector, bne_iff_ne, hne]
  · intro heq
    have hbne : (v.length != self.length) = false := by
      simp [bne_eq_false_iff_eq, heq]
    simp only [ScaleAndAddToVector, hbne, Bool.false_eq_true, if_false]
    exact congrArg Except.ok (addLoop_zipWith self scale v heq)

/-- Witness for C8: null pointer, size mismatch, and the successful update
`[10, 20] += 2 * [1, 2]`. -/
theorem scaleAndAddToVector_spec_witness :
    ScaleAndAddToVector ([1, 2] : List ℤ) 2 none =
      Except.error (VecError.runtimeError "vec != nullptr") ∧
    ScaleAndAddToVector ([1, 2] : List ℤ) 2 (some [0, 0, 0]) =
      Except.error (VecError.outOfRange "Addends must be the same size.") ∧
    ScaleAndAddToVector ([1, 2] : List ℤ) 2 (some [10, 20]) =
      Except.ok [12, 24] :=
  ⟨(scaleAndAddToVector_spec ([1, 2] : List ℤ) [0, 0, 0] 2).1,
   (scaleAndAddToVector_spec ([1, 2] : List ℤ) [0, 0, 0] 2).2.1 (by decide),
   ((scaleAndAddToVector_spec ([1, 2] : List ℤ) [10, 20] 2).2.2 rfl).trans
     rfl⟩

/-- C9: the stream rendering is the bracket-delimited, comma-separated
listing of the elements in index order (`"[]"` for the empty vector), and
its ghost trace shows each index is read exactly once, in order, via
`GetAtIndex`; the rendering is a pure function of the vector. -/
theorem streamVector_spec (fmt : α → String) (v : List α) :
    (streamVector fmt v).1 = "[" ++ commaJoin (v.map fmt) ++ "]" ∧
    (streamVector fmt v).2 = List.range v.length ∧
    (streamVector fmt ([] : List α)).1 = "[]" := by
  refine ⟨?_, ?_, rfl⟩
  · simp only [streamVector]
    rw [streamLoop_fst fmt v v.length (le_refl _), List.take_length]
  · simp only [streamVector]
    exact streamLoop_snd fmt v v.length

/-- C10: the default `GetElementBounds` has no null-pointer guard: with a
null output pointer it produces no error condition at all (undefined
behavior, modelled as `none`), unlike `CopyToPreSizedVector` and
`ScaleAndAddToVector`; with valid pointers it always resizes both outputs
to length zero, whatever the vector and the previous pointee contents. -/
theorem getElementBounds_spec (self : List α) (lo hi : List Rat) :
    GetElementBounds self (some lo) (some hi) = some ([], []) ∧
    GetElementBounds self none (some hi) = none ∧
    GetElementBounds self (some lo) none = none ∧
    GetElementBounds self none none = none :=
  ⟨rfl, rfl, rfl, rfl⟩

end VectorBase
